import Mathlib

/-!
Verification development for the IconInverter ICO-processing core
(src/Project2/main.cpp).

The byte buffer (`std::vector<uint8_t> fileData`) is modelled as `List Nat`
(each element a byte value).  Machine integers are modelled as `Nat`/`Int`
with explicit `% 2^32` where the C++ arithmetic wraps, and `Int.tdiv`
(truncation toward zero) where the C++ code divides signed integers.
Floating point `float` values of the colour model are modelled by exact
rationals; theorems below only rely on the structure of those computations,
never on rounding behaviour.  External OpenCV facilities (`cv::imdecode`,
`cv::imencode`) are modelled as oracle parameters.
-/

namespace IconInverter

/-! ### Byte-level helpers -/

/-- Read a little-endian 16-bit value at `off` (memcpy of a `uint16_t`). -/
def readU16 (l : List Nat) (off : Nat) : Nat :=
  l.getD off 0 + 256 * l.getD (off + 1) 0

/-- Read a little-endian 32-bit value at `off` (memcpy of a `uint32_t`). -/
def readU32 (l : List Nat) (off : Nat) : Nat :=
  l.getD off 0 + 256 * l.getD (off + 1) 0 + 65536 * l.getD (off + 2) 0 +
    16777216 * l.getD (off + 3) 0

/-- Slice of `n` bytes starting at `off`. -/
def readSlice (l : List Nat) (off n : Nat) : List Nat :=
  (l.drop off).take n

/-- Write the byte list `bs` into `l` starting at index `i`
(model of `memcpy` into the buffer; writes beyond the end are dropped,
which is never exercised by the theorems below). -/
def writeBytes (l : List Nat) (i : Nat) : List Nat → List Nat
  | [] => l
  | b :: bs => writeBytes (l.set i b) (i + 1) bs

/-- Model of `std::vector::resize` : truncate, or grow with value-initialised
(zero) elements. -/
def listResize (l : List Nat) (n : Nat) : List Nat :=
  if n ≤ l.length then l.take n else l ++ List.replicate (n - l.length) 0

/-- Reinterpret an unsigned 32-bit value as the `int32_t` with the same bits. -/
def toInt32 (n : Nat) : Int :=
  if n < 2 ^ 31 then (n : Int) else (n : Int) - 2 ^ 32

/-! ### Colour model (`struct RGB`, `struct HSL`, `rgbToHsl`, `hslToRgb`)

`float` is modelled by `ℚ`; the `static_cast<uint8_t>` of a non-negative
in-range value truncates toward zero, modelled by `toByte`. -/

structure RGBc where
  r : Nat
  g : Nat
  b : Nat
  a : Nat
  deriving DecidableEq

structure HSLq where
  h : ℚ
  s : ℚ
  l : ℚ
  deriving DecidableEq

/-- Model of `static_cast<uint8_t>` applied to a (non-negative) `float`. -/
def toByte (x : ℚ) : Nat :=
  x.floor.toNat % 256

/-- Model of `rgbToHsl` (main.cpp lines 80-93). -/
def rgbToHsl (c : RGBc) : HSLq :=
  let r : ℚ := (c.r : ℚ) / 255
  let g : ℚ := (c.g : ℚ) / 255
  let b : ℚ := (c.b : ℚ) / 255
  let mx := max r (max g b)
  let mn := min r (min g b)
  let d := mx - mn
  let l := (mx + mn) / 2
  if d = 0 then ⟨0, 0, l⟩
  else
    let s := if l > 1 / 2 then d / (2 - mx - mn) else d / (mx + mn)
    let h :=
      if mx = r then (g - b) / d + (if g < b then 6 else 0)
      else if mx = g then (b - r) / d + 2
      else (r - g) / d + 4
    ⟨h / 6, s, l⟩

/-- Model of the `hue2rgb` lambda inside `hslToRgb` (lines 103-109).
The two conditional adjustments of `t` are sequential in the source. -/
def hue2rgb (p q t0 : ℚ) : ℚ :=
  let t1 := if t0 < 0 then t0 + 1 else t0
  let t := if t1 > 1 then t1 - 1 else t1
  if t < 1 / 6 then p + (q - p) * 6 * t
  else if t < 1 / 2 then q
  else if t < 2 / 3 then p + (q - p) * (2 / 3 - t) * 6
  else p

/-- Model of `hslToRgb` (lines 96-117); `rgb.a = 255` is set unconditionally
at the top of the function and never modified. -/
def hslToRgb (hsl : HSLq) : RGBc :=
  if hsl.s = 0 then
    ⟨toByte (hsl.l * 255), toByte (hsl.l * 255), toByte (hsl.l * 255), 255⟩
  else
    let q := if hsl.l < 1 / 2 then hsl.l * (1 + hsl.s)
             else hsl.l + hsl.s - hsl.l * hsl.s
    let p := 2 * hsl.l - q
    ⟨toByte (hue2rgb p q (hsl.h + 1 / 3) * 255),
     toByte (hue2rgb p q hsl.h * 255),
     toByte (hue2rgb p q (hsl.h - 1 / 3) * 255), 255⟩

/-- Shared body of every per-pixel inversion loop: build an `RGB`, convert to
HSL, set `l := 1 - l`, convert back. -/
def invRGB (r g b a : Nat) : RGBc :=
  let hsl := rgbToHsl ⟨r, g, b, a⟩
  hslToRgb ⟨hsl.h, hsl.s, 1 - hsl.l⟩

/-! ### Per-pixel loops over decoded images -/

/-- A 4-channel OpenCV pixel (`cv::Vec4b`), channel order B,G,R,A. -/
structure Pixel4 where
  b : Nat
  g : Nat
  r : Nat
  a : Nat
  deriving DecidableEq

/-- A 3-channel OpenCV pixel (`cv::Vec3b`), channel order B,G,R. -/
structure Pixel3 where
  b : Nat
  g : Nat
  r : Nat
  deriving DecidableEq

/-- Body of the 4-channel loops (lines 478-491 and 575-584):
`RGB rgb{pix[2],pix[1],pix[0],pix[3]}`, invert, write back B,G,R and
`pix[3] = rgb.a`. -/
def invertPixel4 (p : Pixel4) : Pixel4 :=
  let nw := invRGB p.r p.g p.b p.a
  ⟨nw.b, nw.g, nw.r, p.a⟩

/-- The 4-channel double loop updates each pixel independently in place,
hence is a map over the pixel grid. -/
def invert4Image (img : List (List Pixel4)) : List (List Pixel4) :=
  img.map (fun row => row.map invertPixel4)

/-- Body of `invertBrightness` (lines 120-133): alpha is taken as 255 and only
B,G,R are written back. -/
def invertPixel3 (p : Pixel3) : Pixel3 :=
  let nw := invRGB p.r p.g p.b 255
  ⟨nw.b, nw.g, nw.r⟩

/-- Model of `invertBrightness` over a 3-channel pixel grid. -/
def invertBrightness3 (img : List (List Pixel3)) : List (List Pixel3) :=
  img.map (fun row => row.map invertPixel3)

/-! ### ICO directory structures and the parser (`loadIco`, lines 413-455)

Layout constants: `sizeof(IconDir) = 6`, `sizeof(IconDirEntry) = 16`,
`sizeof(BitmapInfoHeader) = 40` (packed structs). -/

structure IcoEntry where
  width : Nat
  height : Nat
  colorCount : Nat
  reserved : Nat
  planes : Nat
  bitCount : Nat
  bytesInRes : Nat
  imageOffset : Nat
  deriving DecidableEq

/-- Default entry used with `List.getD`. -/
def e0 : IcoEntry := ⟨0, 0, 0, 0, 0, 0, 0, 0⟩

/-- Default 4-channel pixel used with `List.getD`. -/
def p40 : Pixel4 := ⟨0, 0, 0, 0⟩

/-- Read one packed `IconDirEntry` record at byte offset `off`. -/
def parseEntry (l : List Nat) (off : Nat) : IcoEntry :=
  ⟨l.getD off 0, l.getD (off + 1) 0, l.getD (off + 2) 0, l.getD (off + 3) 0,
   readU16 l (off + 4), readU16 l (off + 6),
   readU32 l (off + 8), readU32 l (off + 12)⟩

/-- The declared entry count (`header.count`, a `uint16_t` at offset 4). -/
def icoCount (l : List Nat) : Nat := readU16 l 4

/-- Number of entry records the parser reads: the declared count, clamped to
however many whole records fit when the declared table overruns the buffer. -/
def icoNumRead (l : List Nat) : Nat :=
  if 6 + icoCount l * 16 > l.length then
    if l.length > 6 then (l.length - 6) / 16 else 0
  else icoCount l

/-- The entry list produced by the parser (all records are retained,
valid or not). -/
def icoEntries (l : List Nat) : List IcoEntry :=
  (List.range (icoNumRead l)).map (fun i => parseEntry l (6 + 16 * i))

/-- The per-entry validity test `entry.imageOffset + entry.bytesInRes <= size`.
Both operands are `uint32_t`, so the C++ sum wraps modulo `2^32` before the
comparison against the (64-bit) buffer size. -/
def entryValid (len : Nat) (e : IcoEntry) : Bool :=
  decide ((e.imageOffset + e.bytesInRes) % 2 ^ 32 ≤ len)

/-- The `validCount` tally of `loadIco`. -/
def icoValidCount (l : List Nat) : Nat :=
  ((icoEntries l).filter (entryValid l.length)).length

/-- Result of the parse phase of `loadIco`, up to the decision whether
`tryRepairIco` is invoked.  `failedEarly` records the two immediate
`return false` paths (buffer shorter than the 6-byte header, or declared
count zero), which do NOT invoke the repair engine. -/
structure ParseResult where
  failedEarly : Bool
  entries : List IcoEntry
  validCount : Nat
  repairInvoked : Bool
  deriving DecidableEq

/-- Model of `loadIco` lines 422-447 (after the file bytes are in memory). -/
def parsePhase (l : List Nat) : ParseResult :=
  if l.length < 6 then ⟨true, [], 0, false⟩
  else if icoCount l = 0 then ⟨true, [], 0, false⟩
  else ⟨false, icoEntries l, icoValidCount l,
        (icoEntries l).isEmpty || icoValidCount l == 0⟩

/-! ### Raw-bitmap transform path of `processHslInversion` (lines 510-541)

The guards already passed at this point: `offset + sizeInRes ≤ fileData.size()`,
`offset ≥ entryTableEnd`, `sizeInRes ≥ 40`, and `bih.bitCount == 32`. -/

/-- Address of the first byte of the pixel for logical row `y`, column `x`
(line 530): `dataOffset + ((safeHeight - 1 - y) * width + x) * 4`. -/
def pixAddr (base sh w y x : Nat) : Nat :=
  base + ((sh - 1 - y) * w + x) * 4

/-- The inverted pixel value computed by the loop body from the four original
channel bytes (`newRgb` of lines 532-535). -/
def newRgbAt (buf : List Nat) (a : Nat) : RGBc :=
  invRGB (buf.getD (a + 2) 0) (buf.getD (a + 1) 0)
         (buf.getD a 0) (buf.getD (a + 3) 0)

/-- One iteration of the inner pixel loop (lines 530-538): bounds guard, read
B,G,R,A, invert, write back B,G,R. -/
def stepPixel (buf : List Nat) (a : Nat) : List Nat :=
  if a + 3 ≥ buf.length then buf
  else
    ((buf.set a (newRgbAt buf a).b).set
      (a + 1) (newRgbAt buf a).g).set (a + 2) (newRgbAt buf a).r

/-- The nested `for (y) for (x)` pixel loops (lines 528-540). -/
def bmpPass (buf : List Nat) (base sh w : Nat) : List Nat :=
  (List.range sh).foldl
    (fun b y =>
      (List.range w).foldl (fun b2 x => stepPixel b2 (pixAddr base sh w y x)) b)
    buf

/-- The flat list of pixel base addresses visited by the nested loops. -/
def addrList (base sh w : Nat) : List Nat :=
  (List.range sh).flatMap
    (fun y => (List.range w).map (fun x => pixAddr base sh w y x))

/-- Sequential processing of a list of pixel base addresses. -/
def runPixels (buf : List Nat) (addrs : List Nat) : List Nat :=
  addrs.foldl stepPixel buf

/-- The declared bitmap width `bih.width` (a signed `int32_t` at
`offset + 4`). -/
def bmpWidthI (fd : List Nat) (offset : Nat) : Int :=
  toInt32 (readU32 fd (offset + 4))

/-- The true image height `bih.height / 2` (signed division truncating toward
zero, line 523). -/
def bmpTrueHeightI (fd : List Nat) (offset : Nat) : Int :=
  Int.tdiv (toInt32 (readU32 fd (offset + 8))) 2

/-- `int width` converted to the `size_t` used in the divisions (meaningful
for positive declared width; a non-positive width is division by zero /
implementation-defined wrap in the source). -/
def bmpWidth (fd : List Nat) (offset : Nat) : Nat :=
  (bmpWidthI fd offset).toNat

/-- `available = fileData.size() - dataOffset` (line 525): bytes from the end
of the 40-byte sub-header to the END OF THE BUFFER (not of the entry). -/
def bmpAvail (fd : List Nat) (offset : Nat) : Nat :=
  fd.length - (offset + 40)

/-- `maxPixels = available / 4` (line 526). -/
def bmpMaxPixels (fd : List Nat) (offset : Nat) : Nat :=
  bmpAvail fd offset / 4

/-- `safeHeight = std::min(height, (int)(maxPixels / width))` (line 527),
as the number of loop iterations (0 when the min is negative). -/
def bmpSafeHeight (fd : List Nat) (offset : Nat) : Nat :=
  (min (bmpTrueHeightI fd offset)
    (Int.ofNat (bmpMaxPixels fd offset / bmpWidth fd offset))).toNat

/-- The whole raw-bitmap branch for one 32-bit entry at payload offset
`offset` (lines 522-540). -/
def processBmpEntry (fd : List Nat) (offset : Nat) : List Nat :=
  bmpPass fd (offset + 40) (bmpSafeHeight fd offset) (bmpWidth fd offset)

/-- Two pixel blocks (4 bytes each) are disjoint. -/
def blocksApart (a b : Nat) : Prop := a + 4 ≤ b ∨ b + 4 ≤ a

/-- The concrete 22-byte buffer refuting C3 as stated: `count = 1`, the single
entry has `bytesInRes = 16` and `imageOffset = 0xFFFFFFF8`, so the exact sum
`imageOffset + bytesInRes = 2^32 + 8` exceeds the buffer length, yet the
wrapped `uint32` sum is `8 ≤ 22` and the entry is tallied as valid. -/
def cexC3 : List Nat :=
  [0, 0, 1, 0, 1, 0,
   0, 0, 0, 0, 1, 0, 32, 0, 16, 0, 0, 0, 248, 255, 255, 255]

/-- The concrete 6-byte buffer for C4: a well-formed header with
`count = 0`. -/
def cexC4 : List Nat := [0, 0, 1, 0, 0, 0]

/-- The concrete buffer for the C5 witness: declared count 3, but only one
whole 16-byte record fits in the 22-byte buffer. -/
def cexC5 : List Nat :=
  [0, 0, 1, 0, 3, 0,
   7, 7, 0, 0, 1, 0, 32, 0, 1, 0, 0, 0, 22, 0, 0, 0]

/-- The concrete buffer refuting C1 as stated: a single-entry container whose
raw-bitmap payload sits at offset 22, declares `width = 1`, `height = 4`
(true height 2), bit depth 32, but carries only one 4-byte pixel, so the
processed height is clamped to 1. -/
def cexC1 : List Nat :=
  List.replicate 22 0 ++
  ([40, 0, 0, 0, 1, 0, 0, 0, 4, 0, 0, 0, 1, 0, 32, 0] ++
    List.replicate 24 0) ++
  [0, 0, 0, 0]

/-! ### Serialization of the directory structures (packed little-endian) -/

/-- Memory image of a `uint16_t` field. -/
def serU16 (v : Nat) : List Nat := [v % 256, v / 256 % 256]

/-- Memory image of a `uint32_t` field. -/
def serU32 (v : Nat) : List Nat :=
  [v % 256, v / 256 % 256, v / 65536 % 256, v / 16777216 % 256]

/-- Memory image of a packed `IconDirEntry` (16 bytes). -/
def serializeEntry (e : IcoEntry) : List Nat :=
  [e.width % 256, e.height % 256, e.colorCount % 256, e.reserved % 256] ++
    serU16 e.planes ++ serU16 e.bitCount ++
    serU32 e.bytesInRes ++ serU32 e.imageOffset

/-- Memory image of a packed `IconDir` header (6 bytes). -/
def serializeHeader (r t c : Nat) : List Nat :=
  serU16 r ++ serU16 t ++ serU16 c

/-! ### The entry transform engine (`processHslInversion`, lines 457-550)

`cv::imdecode` / `cv::imencode` are external collaborators, modelled as
oracle parameters `dec` / `enc`; the in-source pixel loops applied between
them (`invert4Image`, `invertBrightness3`) are modelled above. -/

/-- A decoded `cv::Mat`: channel count, dimensions, and the pixel grid
(4-channel grid used when `channels = 4`, 3-channel grid otherwise). -/
structure CvMat where
  channels : Nat
  rows : Nat
  cols : Nat
  pix4 : List (List Pixel4)
  pix3 : List (List Pixel3)

/-- The in-source inversion applied to a decoded image: the 4-channel loop
(lines 478-491) when `img.channels() == 4`, else `invertBrightness`
(line 494). -/
def invertMat (m : CvMat) : CvMat :=
  if m.channels = 4 then { m with pix4 := invert4Image m.pix4 }
  else { m with pix3 := invertBrightness3 m.pix3 }

/-- PNG signature bytes `{0x89, 'P', 'N', 'G', 0x0D, 0x0A, 0x1A, 0x0A}`. -/
def pngSigBytes : List Nat := [137, 80, 78, 71, 13, 10, 26, 10]

/-- Model of `isPngAt` (lines 327-331). -/
def isPngAt (fd : List Nat) (offset : Nat) : Bool :=
  if fd.length < offset + 8 then false
  else readSlice fd offset 8 == pngSigBytes

/-- Model of `std::fill(..., 0)` over `n` bytes starting at `start`. -/
def fillZeros (l : List Nat) (start n : Nat) : List Nat :=
  writeBytes l start (List.replicate n 0)

/-- Transform of a single directory entry (loop body, lines 460-541):
skip when the payload is out of range or overlaps the directory table;
otherwise the PNG path (decode, invert, re-encode, write in place with
zero-padding, or append when larger) or the raw-bitmap path (only 32-bit,
`processBmpEntry`). -/
def transformStep (dec : List Nat → Option CvMat) (enc : CvMat → List Nat)
    (tableEnd : Nat) (fd : List Nat) (e : IcoEntry) : IcoEntry × List Nat :=
  if e.imageOffset + e.bytesInRes > fd.length ∨ e.imageOffset < tableEnd then
    (e, fd)
  else if isPngAt fd e.imageOffset then
    match dec (readSlice fd e.imageOffset e.bytesInRes) with
    | none => (e, fd)
    | some img =>
      let outPng := enc (invertMat img)
      if outPng.length ≤ e.bytesInRes then
        ({ e with bytesInRes := outPng.length % 2 ^ 32 },
         fillZeros (writeBytes fd e.imageOffset outPng)
           (e.imageOffset + outPng.length) (e.bytesInRes - outPng.length))
      else
        ({ e with imageOffset := fd.length % 2 ^ 32,
                  bytesInRes := outPng.length % 2 ^ 32 },
         fd ++ outPng)
  else
    if e.bytesInRes < 40 then (e, fd)
    else if readU16 fd (e.imageOffset + 14) ≠ 32 then (e, fd)
    else (e, processBmpEntry fd e.imageOffset)

/-- The `for (i)` loop over all entries, threading the buffer through and
collecting the (possibly mutated) entries. -/
def transformAll (dec : List Nat → Option CvMat) (enc : CvMat → List Nat)
    (tableEnd : Nat) : List IcoEntry → List Nat → List IcoEntry × List Nat
  | [], fd => ([], fd)
  | e :: rest, fd =>
    let r1 := transformStep dec enc tableEnd fd e
    let r2 := transformAll dec enc tableEnd rest r1.2
    (r1.1 :: r2.1, r2.2)

/-- Model of `processHslInversion`: transform every entry, then re-serialize
the entry list over the directory-table region (lines 547-549, only when the
entry list is non-empty). -/
def processHslInversion (dec : List Nat → Option CvMat)
    (enc : CvMat → List Nat) (entries : List IcoEntry) (fd : List Nat) :
    List IcoEntry × List Nat :=
  let r := transformAll dec enc (6 + entries.length * 16) entries fd
  (r.1, if r.1.isEmpty then r.2
        else writeBytes r.2 6 (r.1.flatMap serializeEntry))

/-! ### The PNG branch of the repair engine (`tryRepairIco`, lines 333-368) -/

/-- Model of `std::search` for the 8-byte PNG signature: index of the first
match, if any. -/
def findPngSig (fd : List Nat) : Option Nat :=
  (List.range fd.length).find? (fun p => readSlice fd p 8 == pngSigBytes)

/-- Model of the final `memcpy` of the repair path, which copies `n` bytes
from offset `src` to offset `dst` WITHIN the same (already resized and
header-overwritten) buffer.  The model reads the pre-copy contents (memmove
semantics, the most favourable reading of the overlapping `memcpy`, which is
undefined behaviour in the source); the divergence demonstrated below is
independent of the copy direction because the source region was overwritten
before the copy. -/
def copyWithin (l : List Nat) (dst src n : Nat) : List Nat :=
  writeBytes l dst (readSlice l src n)

/-- Model of the PNG branch of `tryRepairIco` (lines 336-368): find the
signature at `p`, decode `[p, end)` via the oracle, and on success rebuild
the buffer as header + single entry + payload, where the payload bytes are
memcpy'd from offset `p` of the ALREADY RESIZED AND PARTIALLY OVERWRITTEN
buffer (the source bug under claim C2). -/
def tryRepairPng (dec : List Nat → Option CvMat) (fd : List Nat) :
    Option (IcoEntry × List Nat) :=
  match findPngSig fd with
  | none => none
  | some p =>
    let pngLen := fd.length - p
    match dec (fd.drop p) with
    | none => none
    | some tmp =>
      let e : IcoEntry := ⟨tmp.cols % 256, tmp.rows % 256, 0, 0, 1, 32,
        pngLen % 2 ^ 32, 22⟩
      let fd1 := listResize fd (22 + pngLen)
      let fd2 := writeBytes fd1 0 (serializeHeader 0 1 1)
      let fd3 := writeBytes fd2 6 (serializeEntry e)
      some (e, copyWithin fd3 22 p pngLen)

/-- The concrete buffer for C2: its PNG signature occurs at offset `p = 0`,
followed by 22 more payload bytes (total 30 bytes). -/
def cexC2buf : List Nat := pngSigBytes ++ List.range 22

/-- A decode oracle that succeeds on every input with a 3×3 4-channel
image (the decoded pixels are irrelevant to the payload layout). -/
def decStub : List Nat → Option CvMat := fun _ => some ⟨4, 3, 3, [], []⟩

/-- A decode oracle that always fails (used by the C8 witness: its entry is
skipped by the range guard before any decode). -/
def decNone : List Nat → Option CvMat := fun _ => none

/-- An encode oracle producing no bytes (C8 witness). -/
def encEmpty : CvMat → List Nat := fun _ => []

/-- C8 witness data: a single all-zero entry over a 22-byte zero buffer. -/
def entriesW : List IcoEntry := [e0]

/-- C8 witness buffer. -/
def fdW : List Nat := List.replicate 22 0

end IconInverter

namespace IconInverter

/-! ### Theorems: colour model -/

/-- C9: `hslToRgb` sets the alpha component to 255 unconditionally,
for every HSL input. -/
theorem c9_hslToRgb_alpha (h s l : ℚ) : (hslToRgb ⟨h, s, l⟩).a = 255 := by
  unfold hslToRgb
  split <;> rfl

/-! ### Theorems: parser (claims C3, C4, C5) -/

/-- C3 counterexample: the produced entry list is the single entry above,
no produced entry satisfies the exact (unbounded) validity sum, yet the
repair engine is NOT invoked — the code wraps the sum modulo `2^32`. -/
theorem c3_counterexample :
    (parsePhase cexC3).entries = [⟨0, 0, 0, 0, 1, 32, 16, 4294967288⟩] ∧
    (parsePhase cexC3).repairInvoked = false ∧
    ¬ (4294967288 + 16 ≤ cexC3.length) := by
  refine ⟨by decide, by decide, by decide⟩

/-- C3 amended: for every buffer at least as long as the fixed header with
declared entry count > 0, repair is invoked exactly when no produced entry
satisfies `(imageOffset + bytesInRes) % 2^32 ≤ buffer length` (the sum wraps
in `uint32` arithmetic); and all records that fit are retained in the entry
list regardless of validity. -/
theorem c3_amended (l : List Nat) (h6 : 6 ≤ l.length) (hc : icoCount l ≠ 0) :
    ((parsePhase l).repairInvoked = true ↔
      ∀ e ∈ (parsePhase l).entries,
        ¬ ((e.imageOffset + e.bytesInRes) % 2 ^ 32 ≤ l.length)) ∧
    (parsePhase l).entries =
      (List.range (min (icoCount l) ((l.length - 6) / 16))).map
        (fun i => parseEntry l (6 + 16 * i)) := by
  have hnot : ¬ l.length < 6 := by omega
  constructor
  · rw [parsePhase, if_neg hnot, if_neg hc]
    simp only [Bool.or_eq_true, beq_iff_eq, List.isEmpty_iff]
    constructor
    · rintro (hemp | hvc)
      · intro e he
        rw [hemp] at he
        simp at he
      · intro e he
        have : (icoEntries l).filter (entryValid l.length) = [] :=
          List.length_eq_zero.mp hvc
        have := List.filter_eq_nil_iff.mp this e he
        simpa [entryValid] using this
    · intro hall
      right
      rw [icoValidCount, List.length_eq_zero, List.filter_eq_nil_iff]
      intro e he
      simpa [entryValid] using hall e he
  · rw [parsePhase, if_neg hnot, if_neg hc]
    simp only [icoEntries]
    congr 1
    rw [icoNumRead]
    split
    · rename_i hgt
      have hlt : (l.length - 6) / 16 < icoCount l := by
        rw [Nat.div_lt_iff_lt_mul (by norm_num)]
        omega
      rw [min_eq_right hlt.le]
      split
      · rfl
      · have h0 : (l.length - 6) / 16 = 0 := by omega
        rw [h0]
    · rename_i hle
      have : icoCount l ≤ (l.length - 6) / 16 := by
        rw [Nat.le_div_iff_mul_le (by norm_num)]
        omega
      rw [min_eq_left this]

/-- C3 witness: the amended statement instantiated at the concrete buffer
`cexC3`. -/
theorem c3_witness :
    (6 ≤ cexC3.length ∧ icoCount cexC3 ≠ 0) ∧
    (((parsePhase cexC3).repairInvoked = true ↔
      ∀ e ∈ (parsePhase cexC3).entries,
        ¬ ((e.imageOffset + e.bytesInRes) % 2 ^ 32 ≤ cexC3.length)) ∧
    (parsePhase cexC3).entries =
      (List.range (min (icoCount cexC3) ((cexC3.length - 6) / 16))).map
        (fun i => parseEntry cexC3 (6 + 16 * i))) :=
  ⟨⟨by decide, by decide⟩, c3_amended cexC3 (by decide) (by decide)⟩

/-- C4 counterexample: for a header with declared count 0 the repair engine
is NOT invoked — `loadIco` returns `false` immediately (line 424), so the
claim that count = 0 triggers repair is false. -/
theorem c4_counterexample :
    (parsePhase cexC4).repairInvoked = false ∧
    (parsePhase cexC4).failedEarly = true := by
  refine ⟨by decide, by decide⟩

/-- C4 amended: a buffer whose header declares entry count 0 makes the
parser fail immediately (the load reports failure), and the repair engine
is not invoked; repair can only be triggered by a nonzero declared count
whose produced entries are all invalid. -/
theorem c4_amended (l : List Nat) (h6 : 6 ≤ l.length) (hc : icoCount l = 0) :
    (parsePhase l).failedEarly = true ∧
    (parsePhase l).repairInvoked = false := by
  have hnot : ¬ l.length < 6 := by omega
  rw [parsePhase, if_neg hnot, if_pos hc]
  exact ⟨rfl, rfl⟩

/-- C4 witness: the amended statement at the concrete buffer `cexC4`. -/
theorem c4_witness :
    (6 ≤ cexC4.length ∧ icoCount cexC4 = 0) ∧
    ((parsePhase cexC4).failedEarly = true ∧
     (parsePhase cexC4).repairInvoked = false) :=
  ⟨⟨by decide, by decide⟩, c4_amended cexC4 (by decide) (by decide)⟩

/-- C5: when the declared directory table overruns the buffer, the parser
reads exactly as many whole 16-byte records as fit after the 6-byte header,
and does not fail on that account. -/
theorem c5_truncated_directory_clamp (l : List Nat) (h6 : 6 ≤ l.length)
    (hc : 0 < icoCount l) (htr : l.length < 6 + icoCount l * 16) :
    (parsePhase l).entries.length = (l.length - 6) / 16 ∧
    (parsePhase l).failedEarly = false := by
  have hnot : ¬ l.length < 6 := by omega
  have hc' : icoCount l ≠ 0 := by omega
  rw [parsePhase, if_neg hnot, if_neg hc']
  refine ⟨?_, rfl⟩
  simp only [icoEntries, List.length_map, List.length_range]
  rw [icoNumRead, if_pos (by omega)]
  split
  · rfl
  · omega

/-- C5 witness: the clamping statement instantiated at `cexC5` — declared
count 3, exactly 1 parsed entry. -/
theorem c5_witness :
    (6 ≤ cexC5.length ∧ 0 < icoCount cexC5 ∧
      cexC5.length < 6 + icoCount cexC5 * 16) ∧
    ((parsePhase cexC5).entries.length = (cexC5.length - 6) / 16 ∧
     (parsePhase cexC5).failedEarly = false) :=
  ⟨⟨by decide, by decide, by decide⟩,
   c5_truncated_directory_clamp cexC5 (by decide) (by decide) (by decide)⟩

/-! ### Lemmas on list writes and the pixel loop -/

lemma getD_set_ne (l : List Nat) (v : Nat) {i j : Nat} (h : i ≠ j) :
    (l.set i v).getD j 0 = l.getD j 0 := by
  rw [List.getD_eq_getElem?_getD, List.getD_eq_getElem?_getD,
    List.getElem?_set_ne h]

lemma getD_set_self (l : List Nat) (v : Nat) {i : Nat} (h : i < l.length) :
    (l.set i v).getD i 0 = v := by
  rw [List.getD_eq_getElem?_getD, List.getElem?_set_self h]
  rfl

lemma length_stepPixel (buf : List Nat) (a : Nat) :
    (stepPixel buf a).length = buf.length := by
  unfold stepPixel
  split
  · rfl
  · simp [List.length_set]

lemma getD_stepPixel_ne (buf : List Nat) {a j : Nat}
    (h0 : j ≠ a) (h1 : j ≠ a + 1) (h2 : j ≠ a + 2) :
    (stepPixel buf a).getD j 0 = buf.getD j 0 := by
  unfold stepPixel
  split
  · rfl
  · rw [getD_set_ne _ _ (Ne.symm h2), getD_set_ne _ _ (Ne.symm h1),
      getD_set_ne _ _ (Ne.symm h0)]

lemma stepPixel_writes (buf : List Nat) {a : Nat} (h : a + 3 < buf.length) :
    (stepPixel buf a).getD a 0 = (newRgbAt buf a).b ∧
    (stepPixel buf a).getD (a + 1) 0 = (newRgbAt buf a).g ∧
    (stepPixel buf a).getD (a + 2) 0 = (newRgbAt buf a).r ∧
    (stepPixel buf a).getD (a + 3) 0 = buf.getD (a + 3) 0 := by
  unfold stepPixel
  rw [if_neg (by omega)]
  refine ⟨?_, ?_, ?_, ?_⟩
  · rw [getD_set_ne _ _ (by omega), getD_set_ne _ _ (by omega),
      getD_set_self _ _ (by omega)]
  · rw [getD_set_ne _ _ (by omega),
      getD_set_self _ _ (by simp [List.length_set]; omega)]
  · rw [getD_set_self _ _ (by simp [List.length_set]; omega)]
  · rw [getD_set_ne _ _ (by omega), getD_set_ne _ _ (by omega),
      getD_set_ne _ _ (by omega)]

lemma length_runPixels (addrs : List Nat) :
    ∀ buf : List Nat, (runPixels buf addrs).length = buf.length := by
  induction addrs with
  | nil => intro buf; rfl
  | cons a t ih =>
    intro buf
    show (runPixels (stepPixel buf a) t).length = buf.length
    rw [ih, length_stepPixel]

lemma getD_runPixels_frame (addrs : List Nat) {j : Nat}
    (h : ∀ a ∈ addrs, j ≠ a ∧ j ≠ a + 1 ∧ j ≠ a + 2) :
    ∀ buf : List Nat, (runPixels buf addrs).getD j 0 = buf.getD j 0 := by
  induction addrs with
  | nil => intro buf; rfl
  | cons a t ih =>
    intro buf
    show (runPixels (stepPixel buf a) t).getD j 0 = buf.getD j 0
    obtain ⟨h0, h1, h2⟩ := h a (by simp)
    rw [ih (fun b hb => h b (by simp [hb])), getD_stepPixel_ne buf h0 h1 h2]

lemma runPixels_cover (addrs : List Nat) :
    addrs.Pairwise blocksApart →
    ∀ a ∈ addrs, ∀ buf : List Nat, a + 3 < buf.length →
      (runPixels buf addrs).getD a 0 = (newRgbAt buf a).b ∧
      (runPixels buf addrs).getD (a + 1) 0 = (newRgbAt buf a).g ∧
      (runPixels buf addrs).getD (a + 2) 0 = (newRgbAt buf a).r ∧
      (runPixels buf addrs).getD (a + 3) 0 = buf.getD (a + 3) 0 := by
  induction addrs with
  | nil => intro _ a ha; simp at ha
  | cons hd tl ih =>
    intro hpw a ha buf hlen
    obtain ⟨hhd, htl⟩ := List.pairwise_cons.mp hpw
    rcases List.mem_cons.mp ha with rfl | hmem
    · -- the pixel is processed first, then the rest leaves its block alone
      have hframe : ∀ c : Nat, c ≤ 3 →
          (runPixels (stepPixel buf a) tl).getD (a + c) 0 =
            (stepPixel buf a).getD (a + c) 0 := by
        intro c hc
        apply getD_runPixels_frame
        intro b hb
        rcases hhd b hb with hsep | hsep
        · exact ⟨by omega, by omega, by omega⟩
        · exact ⟨by omega, by omega, by omega⟩
      obtain ⟨w0, w1, w2, w3⟩ := stepPixel_writes buf hlen
      have e0' := hframe 0 (by omega)
      rw [Nat.add_zero] at e0'
      refine ⟨?_, ?_, ?_, ?_⟩
      · show (runPixels (stepPixel buf a) tl).getD a 0 = _
        rw [e0', w0]
      · show (runPixels (stepPixel buf a) tl).getD (a + 1) 0 = _
        rw [hframe 1 (by omega), w1]
      · show (runPixels (stepPixel buf a) tl).getD (a + 2) 0 = _
        rw [hframe 2 (by omega), w2]
      · show (runPixels (stepPixel buf a) tl).getD (a + 3) 0 = _
        rw [hframe 3 (by omega), w3]
    · -- the head writes into a disjoint block first
      have hsep := hhd a hmem
      have hb0 : (stepPixel buf hd).getD a 0 = buf.getD a 0 := by
        rcases hsep with hs | hs <;>
          exact getD_stepPixel_ne buf (by omega) (by omega) (by omega)
      have hb1 : (stepPixel buf hd).getD (a + 1) 0 = buf.getD (a + 1) 0 := by
        rcases hsep with hs | hs <;>
          exact getD_stepPixel_ne buf (by omega) (by omega) (by omega)
      have hb2 : (stepPixel buf hd).getD (a + 2) 0 = buf.getD (a + 2) 0 := by
        rcases hsep with hs | hs <;>
          exact getD_stepPixel_ne buf (by omega) (by omega) (by omega)
      have hb3 : (stepPixel buf hd).getD (a + 3) 0 = buf.getD (a + 3) 0 := by
        rcases hsep with hs | hs <;>
          exact getD_stepPixel_ne buf (by omega) (by omega) (by omega)
      have hlen' : a + 3 < (stepPixel buf hd).length := by
        rw [length_stepPixel]; exact hlen
      have hrec := ih htl a hmem (stepPixel buf hd) hlen'
      have hnew : newRgbAt (stepPixel buf hd) a = newRgbAt buf a := by
        unfold newRgbAt
        rw [hb0, hb1, hb2, hb3]
      refine ⟨?_, ?_, ?_, ?_⟩
      · show (runPixels (stepPixel buf hd) tl).getD a 0 = _
        rw [hrec.1, hnew]
      · show (runPixels (stepPixel buf hd) tl).getD (a + 1) 0 = _
        rw [hrec.2.1, hnew]
      · show (runPixels (stepPixel buf hd) tl).getD (a + 2) 0 = _
        rw [hrec.2.2.1, hnew]
      · show (runPixels (stepPixel buf hd) tl).getD (a + 3) 0 = _
        rw [hrec.2.2.2, hb3]

lemma foldl_flatMap' {α β γ : Type} (l : List α) (f : α → List β)
    (g : γ → β → γ) (init : γ) :
    (l.flatMap f).foldl g init = l.foldl (fun b a => (f a).foldl g b) init := by
  induction l generalizing init with
  | nil => rfl
  | cons x t ih => rw [List.flatMap_cons, List.foldl_append, List.foldl_cons, ih]

lemma bmpPass_eq (buf : List Nat) (base sh w : Nat) :
    bmpPass buf base sh w = runPixels buf (addrList base sh w) := by
  rw [bmpPass, runPixels, addrList, foldl_flatMap']
  simp only [List.foldl_map]

lemma mem_addrList {base sh w aa : Nat} :
    aa ∈ addrList base sh w ↔
      ∃ y, y < sh ∧ ∃ x, x < w ∧ aa = pixAddr base sh w y x := by
  simp only [addrList, List.mem_flatMap, List.mem_map, List.mem_range]
  constructor
  · rintro ⟨y, hy, x, hx, rfl⟩
    exact ⟨y, hy, x, hx, rfl⟩
  · rintro ⟨y, hy, x, hx, rfl⟩
    exact ⟨y, hy, x, hx, rfl⟩

lemma pairwise_flatMap' {α β : Type} {R : β → β → Prop} {l : List α}
    {f : α → List β} (h1 : ∀ a ∈ l, (f a).Pairwise R)
    (h2 : l.Pairwise (fun a a' => ∀ b ∈ f a, ∀ b' ∈ f a', R b b')) :
    (l.flatMap f).Pairwise R := by
  induction l with
  | nil => simp
  | cons x t ih =>
    rw [List.flatMap_cons, List.pairwise_append]
    obtain ⟨hx, ht⟩ := List.pairwise_cons.mp h2
    refine ⟨h1 x (by simp), ih (fun a haa => h1 a (by simp [haa])) ht, ?_⟩
    intro b hb b' hb'
    rw [List.mem_flatMap] at hb'
    obtain ⟨a', ha', hb'2⟩ := hb'
    exact hx a' ha' b hb b' hb'2

lemma addrList_pairwise (base sh w : Nat) :
    (addrList base sh w).Pairwise blocksApart := by
  apply pairwise_flatMap'
  · intro y _
    rw [List.pairwise_map]
    refine (List.pairwise_lt_range w).imp ?_
    intro x x' hlt
    unfold blocksApart pixAddr
    left
    generalize (sh - 1 - y) * w = A
    omega
  · refine (List.pairwise_lt_range sh).imp_of_mem ?_
    intro y y' hy hy' hlt
    rw [List.mem_range] at hy hy'
    intro b hb b' hb'
    rw [List.mem_map] at hb hb'
    obtain ⟨x, hx, rfl⟩ := hb
    obtain ⟨x', hx', rfl⟩ := hb'
    rw [List.mem_range] at hx hx'
    unfold blocksApart pixAddr
    right
    have h1 : sh - 1 - y' + 1 ≤ sh - 1 - y := by omega
    have h2 : (sh - 1 - y' + 1) * w ≤ (sh - 1 - y) * w :=
      Nat.mul_le_mul_right _ h1
    have h3 : (sh - 1 - y' + 1) * w = (sh - 1 - y') * w + w := by ring
    rw [h3] at h2
    generalize (sh - 1 - y) * w = A at h2 ⊢
    generalize (sh - 1 - y') * w = B at h2 ⊢
    omega

lemma bmpWidth_pos {fd : List Nat} {offset : Nat}
    (hw : 0 < bmpWidthI fd offset) : 0 < bmpWidth fd offset := by
  unfold bmpWidth
  omega

lemma bmpSafeHeight_le {fd : List Nat} {offset : Nat} :
    bmpSafeHeight fd offset ≤
      bmpMaxPixels fd offset / bmpWidth fd offset := by
  unfold bmpSafeHeight
  have hmin :
      min (bmpTrueHeightI fd offset)
        (Int.ofNat (bmpMaxPixels fd offset / bmpWidth fd offset)) ≤
      Int.ofNat (bmpMaxPixels fd offset / bmpWidth fd offset) :=
    min_le_right _ _
  have h2 := Int.toNat_le_toNat hmin
  rwa [show Int.ofNat (bmpMaxPixels fd offset / bmpWidth fd offset) =
      ((bmpMaxPixels fd offset / bmpWidth fd offset : Nat) : Int) from rfl,
    Int.toNat_natCast] at h2

lemma pixAddr_bound {fd : List Nat} {offset : Nat}
    (hofs : offset + 40 ≤ fd.length) (hw : 0 < bmpWidth fd offset)
    {y x : Nat} (hy : y < bmpSafeHeight fd offset)
    (hx : x < bmpWidth fd offset) :
    pixAddr (offset + 40) (bmpSafeHeight fd offset) (bmpWidth fd offset) y x
      + 3 < fd.length := by
  have h1 : bmpSafeHeight fd offset * bmpWidth fd offset ≤
      bmpMaxPixels fd offset :=
    (Nat.le_div_iff_mul_le hw).mp bmpSafeHeight_le
  have h2 : bmpMaxPixels fd offset * 4 ≤ bmpAvail fd offset :=
    Nat.div_mul_le_self _ _
  have h3 : bmpAvail fd offset = fd.length - (offset + 40) := rfl
  have h4 : (bmpSafeHeight fd offset - 1 - y) * bmpWidth fd offset ≤
      (bmpSafeHeight fd offset - 1) * bmpWidth fd offset :=
    Nat.mul_le_mul_right _ (by omega)
  have h5 : (bmpSafeHeight fd offset - 1) * bmpWidth fd offset +
      bmpWidth fd offset = bmpSafeHeight fd offset * bmpWidth fd offset := by
    have hs : bmpSafeHeight fd offset - 1 + 1 = bmpSafeHeight fd offset := by
      omega
    calc (bmpSafeHeight fd offset - 1) * bmpWidth fd offset +
          bmpWidth fd offset
        = (bmpSafeHeight fd offset - 1 + 1) * bmpWidth fd offset := by ring
      _ = bmpSafeHeight fd offset * bmpWidth fd offset := by rw [hs]
  rw [h3] at h2
  unfold pixAddr
  generalize (bmpSafeHeight fd offset - 1 - y) * bmpWidth fd offset = A
    at h4 ⊢
  generalize (bmpSafeHeight fd offset - 1) * bmpWidth fd offset = B at h4 h5
  generalize bmpSafeHeight fd offset * bmpWidth fd offset = C at h1 h5
  generalize bmpMaxPixels fd offset = M at h1 h2
  omega

lemma invRGB_black : invRGB 0 0 0 0 = ⟨255, 255, 255, 255⟩ := by
  have h1 : rgbToHsl ⟨0, 0, 0, 0⟩ = ⟨0, 0, 0⟩ := by norm_num [rgbToHsl]
  unfold invRGB
  rw [h1]
  norm_num [hslToRgb, toByte]
  rfl

lemma invert4Image_row_a (row : List Pixel4) (x : Nat) :
    ((row.map invertPixel4).getD x p40).a = (row.getD x p40).a := by
  induction row generalizing x with
  | nil => rfl
  | cons p t ih =>
    cases x with
    | zero => rfl
    | succ n => exact ih n

lemma invert4Image_a (img : List (List Pixel4)) (y x : Nat) :
    (((invert4Image img).getD y []).getD x p40).a =
      ((img.getD y []).getD x p40).a := by
  induction img generalizing y with
  | nil => rfl
  | cons row t ih =>
    cases y with
    | zero => exact invert4Image_row_a row x
    | succ n => exact ih n

/-! ### Theorems: the two alpha-carrying inversion loops (claim C7) -/

/-- C7: in the 4-channel codec-decoded loop and in the 32-bit raw-bitmap
loop, the alpha channel of every pixel is identical before and after the
transform (the 4-channel loop writes the original alpha back; the raw loop
writes only the B,G,R bytes, never the byte at pixel address + 3). -/
theorem c7_alpha_preserved :
    (∀ (img : List (List Pixel4)) (y x : Nat),
      (((invert4Image img).getD y []).getD x p40).a =
        ((img.getD y []).getD x p40).a) ∧
    (∀ (fd : List Nat) (offset y x : Nat),
      (processBmpEntry fd offset).getD
          (pixAddr (offset + 40) (bmpSafeHeight fd offset)
            (bmpWidth fd offset) y x + 3) 0 =
        fd.getD
          (pixAddr (offset + 40) (bmpSafeHeight fd offset)
            (bmpWidth fd offset) y x + 3) 0) := by
  constructor
  · exact invert4Image_a
  · intro fd offset y x
    rw [processBmpEntry, bmpPass_eq]
    apply getD_runPixels_frame
    intro a ha
    rw [mem_addrList] at ha
    obtain ⟨y', hy', x', hx', rfl⟩ := ha
    unfold pixAddr
    generalize (bmpSafeHeight fd offset - 1 - y) * bmpWidth fd offset + x = A
    generalize (bmpSafeHeight fd offset - 1 - y') * bmpWidth fd offset + x' = B
    omega

/-! ### Theorems: raw-bitmap path addressing (claims C1 and C10) -/

/-- C1 counterexample: for the concrete single-entry container `cexC1`
(payload at offset 22, declared width 1, declared height 4, so true height 2,
but only one pixel of payload, so the processed height is clamped to 1), the
code writes the pixel at byte address 62 = dataOffset + ((safeHeight-1-0)*1+0)*4,
changing it from 0 to 255, whereas the claimed address formula
dataOffset + ((trueHeight-1-y)*width+x)*4 covers only bytes 66..69; hence a
payload byte outside the claimed write set changes. -/
theorem c1_counterexample :
    (processBmpEntry cexC1 22).getD 62 0 = 255 ∧
    cexC1.getD 62 0 = 0 ∧
    bmpTrueHeightI cexC1 22 = 2 ∧
    bmpSafeHeight cexC1 22 = 1 ∧
    22 + 40 + ((2 - 1 - 0) * 1 + 0) * 4 = 66 := by
  have hsh : bmpSafeHeight cexC1 22 = 1 := by decide
  have hwid : bmpWidth cexC1 22 = 1 := by decide
  have hpe : processBmpEntry cexC1 22 = runPixels cexC1 (addrList 62 1 1) := by
    rw [processBmpEntry, bmpPass_eq, hsh, hwid]
  have hmem : (62 : Nat) ∈ addrList 62 1 1 := by
    rw [mem_addrList]
    refine ⟨0, by omega, 0, by omega, ?_⟩
    norm_num [pixAddr]
  have hcov := runPixels_cover (addrList 62 1 1) (addrList_pairwise 62 1 1)
    62 hmem cexC1 (by decide)
  have hnew : newRgbAt cexC1 62 = invRGB 0 0 0 0 := by
    unfold newRgbAt
    have h64 : cexC1.getD (62 + 2) 0 = 0 := by decide
    have h63 : cexC1.getD (62 + 1) 0 = 0 := by decide
    have h62 : cexC1.getD 62 0 = 0 := by decide
    have h65 : cexC1.getD (62 + 3) 0 = 0 := by decide
    rw [h64, h63, h62, h65]
  refine ⟨?_, by decide, by decide, by decide, by decide⟩
  rw [hpe, hcov.1, hnew, invRGB_black]

/-- C1 amended: in the raw-bitmap path, for a 32-bit entry with positive
declared width and non-negative true height, (a) the processed height is the
largest row count m with m ≤ trueHeight whose pixels fit in the bytes from
dataOffset to the END OF THE BUFFER (not: the entry's payload); (b) the loop
writes exactly the B,G,R bytes at dataOffset + ((processedHeight-1-y)*width+x)*4
(not: trueHeight-1-y) with the inverted colour of the original bytes there,
leaving the alpha byte; (c) every other buffer byte is unchanged. -/
theorem c1_amended_raw_path (fd : List Nat) (offset sizeInRes : Nat)
    (hin : offset + sizeInRes ≤ fd.length) (h40 : 40 ≤ sizeInRes)
    (hw : 0 < bmpWidthI fd offset) (hh : 0 ≤ bmpTrueHeightI fd offset)
    (hlen : fd.length < 2 ^ 31) :
    (∀ m : Nat,
      ((m : Int) ≤ bmpTrueHeightI fd offset ∧
        m * bmpWidth fd offset * 4 ≤ fd.length - (offset + 40)) ↔
      m ≤ bmpSafeHeight fd offset) ∧
    (∀ y, y < bmpSafeHeight fd offset → ∀ x, x < bmpWidth fd offset →
      (processBmpEntry fd offset).getD
          (pixAddr (offset + 40) (bmpSafeHeight fd offset)
            (bmpWidth fd offset) y x) 0 =
        (newRgbAt fd (pixAddr (offset + 40) (bmpSafeHeight fd offset)
          (bmpWidth fd offset) y x)).b ∧
      (processBmpEntry fd offset).getD
          (pixAddr (offset + 40) (bmpSafeHeight fd offset)
            (bmpWidth fd offset) y x + 1) 0 =
        (newRgbAt fd (pixAddr (offset + 40) (bmpSafeHeight fd offset)
          (bmpWidth fd offset) y x)).g ∧
      (processBmpEntry fd offset).getD
          (pixAddr (offset + 40) (bmpSafeHeight fd offset)
            (bmpWidth fd offset) y x + 2) 0 =
        (newRgbAt fd (pixAddr (offset + 40) (bmpSafeHeight fd offset)
          (bmpWidth fd offset) y x)).r ∧
      (processBmpEntry fd offset).getD
          (pixAddr (offset + 40) (bmpSafeHeight fd offset)
            (bmpWidth fd offset) y x + 3) 0 =
        fd.getD (pixAddr (offset + 40) (bmpSafeHeight fd offset)
          (bmpWidth fd offset) y x + 3) 0) ∧
    (∀ j : Nat,
      (∀ y, y < bmpSafeHeight fd offset → ∀ x, x < bmpWidth fd offset →
        ∀ c, c < 3 →
          j ≠ pixAddr (offset + 40) (bmpSafeHeight fd offset)
            (bmpWidth fd offset) y x + c) →
      (processBmpEntry fd offset).getD j 0 = fd.getD j 0) := by
  have hw' := bmpWidth_pos hw
  have hofs : offset + 40 ≤ fd.length := by omega
  refine ⟨?_, ?_, ?_⟩
  · intro m
    have hnn : 0 ≤ min (bmpTrueHeightI fd offset)
        (Int.ofNat (bmpMaxPixels fd offset / bmpWidth fd offset)) :=
      le_min hh (Int.ofNat_nonneg _)
    have hiff :
        ((m : Int) ≤ Int.ofNat (bmpMaxPixels fd offset / bmpWidth fd offset))
          ↔ m * bmpWidth fd offset * 4 ≤ fd.length - (offset + 40) := by
      rw [show Int.ofNat (bmpMaxPixels fd offset / bmpWidth fd offset) =
          ((bmpMaxPixels fd offset / bmpWidth fd offset : Nat) : Int) from
          rfl, Nat.cast_le, Nat.le_div_iff_mul_le hw']
      rw [show bmpMaxPixels fd offset = bmpAvail fd offset / 4 from rfl]
      rw [Nat.le_div_iff_mul_le (by norm_num : (0 : Nat) < 4)]
      rw [show bmpAvail fd offset = fd.length - (offset + 40) from rfl]
    rw [show bmpSafeHeight fd offset =
        (min (bmpTrueHeightI fd offset)
          (Int.ofNat (bmpMaxPixels fd offset / bmpWidth fd offset))).toNat
        from rfl, Int.le_toNat hnn, le_min_iff]
    exact and_congr Iff.rfl hiff.symm
  · intro y hy x hx
    have hbnd := pixAddr_bound hofs hw' hy hx
    have hmem : pixAddr (offset + 40) (bmpSafeHeight fd offset)
        (bmpWidth fd offset) y x ∈
        addrList (offset + 40) (bmpSafeHeight fd offset)
          (bmpWidth fd offset) :=
      mem_addrList.mpr ⟨y, hy, x, hx, rfl⟩
    have hres := runPixels_cover _ (addrList_pairwise _ _ _) _ hmem fd
      (by omega)
    rw [processBmpEntry, bmpPass_eq]
    exact hres
  · intro j hj
    rw [processBmpEntry, bmpPass_eq]
    apply getD_runPixels_frame
    intro a ha
    rw [mem_addrList] at ha
    obtain ⟨y, hy, x, hx, rfl⟩ := ha
    have hj0 := hj y hy x hx 0 (by omega)
    rw [Nat.add_zero] at hj0
    exact ⟨hj0, hj y hy x hx 1 (by omega), hj y hy x hx 2 (by omega)⟩

/-- C1 witness: the amended raw-bitmap statement instantiated at the concrete
container `cexC1` (offset 22, sizeInRes 44). -/
theorem c1_witness :
    (22 + 44 ≤ cexC1.length ∧ 40 ≤ 44 ∧ 0 < bmpWidthI cexC1 22 ∧
      0 ≤ bmpTrueHeightI cexC1 22 ∧ cexC1.length < 2 ^ 31) ∧
    ((∀ m : Nat,
      ((m : Int) ≤ bmpTrueHeightI cexC1 22 ∧
        m * bmpWidth cexC1 22 * 4 ≤ cexC1.length - (22 + 40)) ↔
      m ≤ bmpSafeHeight cexC1 22) ∧
    (∀ y, y < bmpSafeHeight cexC1 22 → ∀ x, x < bmpWidth cexC1 22 →
      (processBmpEntry cexC1 22).getD
          (pixAddr (22 + 40) (bmpSafeHeight cexC1 22)
            (bmpWidth cexC1 22) y x) 0 =
        (newRgbAt cexC1 (pixAddr (22 + 40) (bmpSafeHeight cexC1 22)
          (bmpWidth cexC1 22) y x)).b ∧
      (processBmpEntry cexC1 22).getD
          (pixAddr (22 + 40) (bmpSafeHeight cexC1 22)
            (bmpWidth cexC1 22) y x + 1) 0 =
        (newRgbAt cexC1 (pixAddr (22 + 40) (bmpSafeHeight cexC1 22)
          (bmpWidth cexC1 22) y x)).g ∧
      (processBmpEntry cexC1 22).getD
          (pixAddr (22 + 40) (bmpSafeHeight cexC1 22)
            (bmpWidth cexC1 22) y x + 2) 0 =
        (newRgbAt cexC1 (pixAddr (22 + 40) (bmpSafeHeight cexC1 22)
          (bmpWidth cexC1 22) y x)).r ∧
      (processBmpEntry cexC1 22).getD
          (pixAddr (22 + 40) (bmpSafeHeight cexC1 22)
            (bmpWidth cexC1 22) y x + 3) 0 =
        cexC1.getD (pixAddr (22 + 40) (bmpSafeHeight cexC1 22)
          (bmpWidth cexC1 22) y x + 3) 0) ∧
    (∀ j : Nat,
      (∀ y, y < bmpSafeHeight cexC1 22 → ∀ x, x < bmpWidth cexC1 22 →
        ∀ c, c < 3 →
          j ≠ pixAddr (22 + 40) (bmpSafeHeight cexC1 22)
            (bmpWidth cexC1 22) y x + c) →
      (processBmpEntry cexC1 22).getD j 0 = cexC1.getD j 0)) :=
  ⟨⟨by decide, by decide, by decide, by decide, by decide⟩,
   c1_amended_raw_path cexC1 22 44 (by decide) (by decide) (by decide)
     (by decide) (by decide)⟩

/-- C10: in the raw-bitmap path, for an entry with positive declared width
(and the guards `offset + sizeInRes ≤ buffer length`, `40 ≤ sizeInRes`
already established by the caller), every pixel visited by the loop has all
four channel byte indices strictly below the buffer length — the guarded
writes never touch an out-of-range index. -/
theorem c10_raw_path_bounds (fd : List Nat) (offset sizeInRes : Nat)
    (hin : offset + sizeInRes ≤ fd.length) (h40 : 40 ≤ sizeInRes)
    (hw : 0 < bmpWidthI fd offset) (hlen : fd.length < 2 ^ 31) :
    ∀ y, y < bmpSafeHeight fd offset → ∀ x, x < bmpWidth fd offset →
      pixAddr (offset + 40) (bmpSafeHeight fd offset) (bmpWidth fd offset)
        y x + 3 < fd.length := by
  intro y hy x hx
  exact pixAddr_bound (by omega) (bmpWidth_pos hw) hy hx

/-- C10 witness: the bounds statement instantiated at the concrete container
`cexC1` (offset 22, sizeInRes 44). -/
theorem c10_witness :
    (22 + 44 ≤ cexC1.length ∧ 40 ≤ 44 ∧ 0 < bmpWidthI cexC1 22 ∧
      cexC1.length < 2 ^ 31) ∧
    (∀ y, y < bmpSafeHeight cexC1 22 → ∀ x, x < bmpWidth cexC1 22 →
      pixAddr (22 + 40) (bmpSafeHeight cexC1 22) (bmpWidth cexC1 22)
        y x + 3 < cexC1.length) :=
  ⟨⟨by decide, by decide, by decide, by decide⟩,
   c10_raw_path_bounds cexC1 22 44 (by decide) (by decide) (by decide)
     (by decide)⟩

/-! ### Lemmas on `writeBytes` and serialization -/

lemma length_writeBytes (bs : List Nat) :
    ∀ (l : List Nat) (i : Nat), (writeBytes l i bs).length = l.length := by
  induction bs with
  | nil => intro l i; rfl
  | cons b bs ih =>
    intro l i
    show (writeBytes (l.set i b) (i + 1) bs).length = l.length
    rw [ih, List.length_set]

lemma getD_writeBytes_lt (bs : List Nat) :
    ∀ (l : List Nat) (i j : Nat), j < i →
      (writeBytes l i bs).getD j 0 = l.getD j 0 := by
  induction bs with
  | nil => intro l i j _; rfl
  | cons b bs ih =>
    intro l i j hj
    show (writeBytes (l.set i b) (i + 1) bs).getD j 0 = _
    rw [ih _ _ _ (by omega), getD_set_ne _ _ (by omega)]

lemma getD_writeBytes_in (bs : List Nat) :
    ∀ (l : List Nat) (i j : Nat), i ≤ j → j < i + bs.length →
      j < l.length →
      (writeBytes l i bs).getD j 0 = bs.getD (j - i) 0 := by
  induction bs with
  | nil => intro l i j h1 h2 _; simp at h2; omega
  | cons b bs ih =>
    intro l i j h1 h2 h3
    show (writeBytes (l.set i b) (i + 1) bs).getD j 0 = _
    rcases Nat.eq_or_lt_of_le h1 with heq | hlt
    · subst heq
      rw [getD_writeBytes_lt bs _ _ _ (by omega),
        getD_set_self _ _ (by omega), Nat.sub_self]
      rfl
    · rw [ih _ _ _ (by omega) (by simp at h2 ⊢; omega)
        (by rw [List.length_set]; exact h3)]
      rw [show j - i = (j - (i + 1)) + 1 from by omega]
      rfl

lemma length_serializeEntry (e : IcoEntry) : (serializeEntry e).length = 16 :=
  rfl

lemma length_flatMap_ser (es : List IcoEntry) :
    (es.flatMap serializeEntry).length = 16 * es.length := by
  induction es with
  | nil => rfl
  | cons e t ih =>
    rw [List.flatMap_cons, List.length_append, ih, length_serializeEntry,
      List.length_cons]
    ring

lemma getD_flatMap_ser (es : List IcoEntry) :
    ∀ (i j : Nat), i < es.length → j < 16 →
      (es.flatMap serializeEntry).getD (16 * i + j) 0 =
        (serializeEntry (es.getD i e0)).getD j 0 := by
  induction es with
  | nil => intro i j hi _; simp at hi
  | cons e t ih =>
    intro i j hi hj
    rw [List.flatMap_cons]
    cases i with
    | zero =>
      rw [Nat.mul_zero, Nat.zero_add,
        List.getD_append _ _ _ _ (by rw [length_serializeEntry]; omega)]
      rfl
    | succ n =>
      rw [List.getD_append_right _ _ _ _
        (by rw [length_serializeEntry]; omega), length_serializeEntry,
        show 16 * (n + 1) + j - 16 = 16 * n + j from by omega]
      exact ih n j (by simp at hi; omega) hj

/-! ### Lemmas on the entry transform engine -/

lemma length_processBmpEntry (fd : List Nat) (offset : Nat) :
    (processBmpEntry fd offset).length = fd.length := by
  rw [processBmpEntry, bmpPass_eq, length_runPixels]

lemma transformStep_fields (dec : List Nat → Option CvMat)
    (enc : CvMat → List Nat) (te : Nat) (fd : List Nat) (e : IcoEntry) :
    (transformStep dec enc te fd e).1.width = e.width ∧
    (transformStep dec enc te fd e).1.height = e.height ∧
    (transformStep dec enc te fd e).1.colorCount = e.colorCount ∧
    (transformStep dec enc te fd e).1.reserved = e.reserved ∧
    (transformStep dec enc te fd e).1.planes = e.planes ∧
    (transformStep dec enc te fd e).1.bitCount = e.bitCount := by
  simp only [transformStep]
  repeat' split
  all_goals exact ⟨rfl, rfl, rfl, rfl, rfl, rfl⟩

lemma transformStep_fdlen (dec : List Nat → Option CvMat)
    (enc : CvMat → List Nat) (te : Nat) (fd : List Nat) (e : IcoEntry) :
    fd.length ≤ (transformStep dec enc te fd e).2.length := by
  simp only [transformStep]
  repeat' split
  all_goals simp only [fillZeros, length_writeBytes, List.length_append,
    length_processBmpEntry]
  all_goals omega

lemma transformAll_length (dec : List Nat → Option CvMat)
    (enc : CvMat → List Nat) (te : Nat) :
    ∀ (es : List IcoEntry) (fd : List Nat),
      (transformAll dec enc te es fd).1.length = es.length := by
  intro es
  induction es with
  | nil => intro fd; rfl
  | cons e rest ih =>
    intro fd
    show ((transformStep dec enc te fd e).1 ::
      (transformAll dec enc te rest (transformStep dec enc te fd e).2).1).length
      = _
    rw [List.length_cons, ih, List.length_cons]

lemma transformAll_fdlen (dec : List Nat → Option CvMat)
    (enc : CvMat → List Nat) (te : Nat) :
    ∀ (es : List IcoEntry) (fd : List Nat),
      fd.length ≤ (transformAll dec enc te es fd).2.length := by
  intro es
  induction es with
  | nil => intro fd; exact le_refl _
  | cons e rest ih =>
    intro fd
    show fd.length ≤
      (transformAll dec enc te rest (transformStep dec enc te fd e).2).2.length
    exact le_trans (transformStep_fdlen dec enc te fd e)
      (ih (transformStep dec enc te fd e).2)

lemma transformAll_fields (dec : List Nat → Option CvMat)
    (enc : CvMat → List Nat) (te : Nat) :
    ∀ (es : List IcoEntry) (fd : List Nat) (i : Nat), i < es.length →
      ((transformAll dec enc te es fd).1.getD i e0).width =
        (es.getD i e0).width ∧
      ((transformAll dec enc te es fd).1.getD i e0).height =
        (es.getD i e0).height ∧
      ((transformAll dec enc te es fd).1.getD i e0).colorCount =
        (es.getD i e0).colorCount ∧
      ((transformAll dec enc te es fd).1.getD i e0).reserved =
        (es.getD i e0).reserved ∧
      ((transformAll dec enc te es fd).1.getD i e0).planes =
        (es.getD i e0).planes ∧
      ((transformAll dec enc te es fd).1.getD i e0).bitCount =
        (es.getD i e0).bitCount := by
  intro es
  induction es with
  | nil => intro fd i hi; simp at hi
  | cons e rest ih =>
    intro fd i hi
    cases i with
    | zero => exact transformStep_fields dec enc te fd e
    | succ n => exact ih (transformStep dec enc te fd e).2 n (by simp at hi; omega)

/-! ### Theorems: directory invariants of the transform (claim C8) -/

/-- C8: for every container state (parsed or repaired) whose directory table
fits in the buffer, the transform keeps the number of entries (hence the
directory-table size) unchanged, may change only the `bytesInRes` and
`imageOffset` fields of individual entries, and re-serializes the resulting
entries over the original directory-table region at offset 6. -/
theorem c8_directory_invariants (dec : List Nat → Option CvMat)
    (enc : CvMat → List Nat) (entries : List IcoEntry) (fd : List Nat)
    (hfit : 6 + entries.length * 16 ≤ fd.length) :
    (processHslInversion dec enc entries fd).1.length = entries.length ∧
    (∀ i, i < entries.length →
      ((processHslInversion dec enc entries fd).1.getD i e0).width =
        (entries.getD i e0).width ∧
      ((processHslInversion dec enc entries fd).1.getD i e0).height =
        (entries.getD i e0).height ∧
      ((processHslInversion dec enc entries fd).1.getD i e0).colorCount =
        (entries.getD i e0).colorCount ∧
      ((processHslInversion dec enc entries fd).1.getD i e0).reserved =
        (entries.getD i e0).reserved ∧
      ((processHslInversion dec enc entries fd).1.getD i e0).planes =
        (entries.getD i e0).planes ∧
      ((processHslInversion dec enc entries fd).1.getD i e0).bitCount =
        (entries.getD i e0).bitCount) ∧
    (∀ i j, i < entries.length → j < 16 →
      (processHslInversion dec enc entries fd).2.getD (6 + (16 * i + j)) 0 =
        (serializeEntry
          ((processHslInversion dec enc entries fd).1.getD i e0)).getD j 0) := by
  have h1 : (processHslInversion dec enc entries fd).1 =
      (transformAll dec enc (6 + entries.length * 16) entries fd).1 := rfl
  have hn : (transformAll dec enc (6 + entries.length * 16) entries fd).1.length
      = entries.length := transformAll_length dec enc _ entries fd
  refine ⟨?_, ?_, ?_⟩
  · rw [h1, hn]
  · intro i hi
    rw [h1]
    exact transformAll_fields dec enc _ entries fd i hi
  · intro i j hi hj
    have hne : (transformAll dec enc (6 + entries.length * 16) entries
        fd).1.isEmpty ≠ true := by
      intro hemp
      rw [List.isEmpty_iff] at hemp
      rw [hemp] at hn
      simp at hn
      omega
    have h2 : (processHslInversion dec enc entries fd).2 =
        writeBytes
          (transformAll dec enc (6 + entries.length * 16) entries fd).2 6
          ((transformAll dec enc (6 + entries.length * 16) entries
            fd).1.flatMap serializeEntry) := by
      show (if (transformAll dec enc (6 + entries.length * 16) entries
          fd).1.isEmpty then _ else _) = _
      rw [if_neg hne]
    have hflen : ((transformAll dec enc (6 + entries.length * 16) entries
        fd).1.flatMap serializeEntry).length = 16 * entries.length := by
      rw [length_flatMap_ser, hn]
    have hfdlen : fd.length ≤
        (transformAll dec enc (6 + entries.length * 16) entries
          fd).2.length := transformAll_fdlen dec enc _ entries fd
    rw [h1, h2]
    rw [getD_writeBytes_in _ _ _ _ (by omega) (by rw [hflen]; omega)
      (by omega)]
    rw [show 6 + (16 * i + j) - 6 = 16 * i + j from by omega]
    exact getD_flatMap_ser _ i j (by rw [hn]; omega) hj

/-- C8 witness: the directory invariants instantiated at a concrete
single-entry state (all-zero entry, 22-byte zero buffer, failing decode
oracle, empty encode oracle). -/
theorem c8_witness :
    (6 + entriesW.length * 16 ≤ fdW.length) ∧
    ((processHslInversion decNone encEmpty entriesW fdW).1.length =
      entriesW.length ∧
    (∀ i, i < entriesW.length →
      ((processHslInversion decNone encEmpty entriesW fdW).1.getD i
        e0).width = (entriesW.getD i e0).width ∧
      ((processHslInversion decNone encEmpty entriesW fdW).1.getD i
        e0).height = (entriesW.getD i e0).height ∧
      ((processHslInversion decNone encEmpty entriesW fdW).1.getD i
        e0).colorCount = (entriesW.getD i e0).colorCount ∧
      ((processHslInversion decNone encEmpty entriesW fdW).1.getD i
        e0).reserved = (entriesW.getD i e0).reserved ∧
      ((processHslInversion decNone encEmpty entriesW fdW).1.getD i
        e0).planes = (entriesW.getD i e0).planes ∧
      ((processHslInversion decNone encEmpty entriesW fdW).1.getD i
        e0).bitCount = (entriesW.getD i e0).bitCount) ∧
    (∀ i j, i < entriesW.length → j < 16 →
      (processHslInversion decNone encEmpty entriesW fdW).2.getD
        (6 + (16 * i + j)) 0 =
        (serializeEntry
          ((processHslInversion decNone encEmpty entriesW fdW).1.getD i
            e0)).getD j 0)) :=
  ⟨by decide, c8_directory_invariants decNone encEmpty entriesW fdW
    (by decide)⟩

/-! ### Theorem: evaluation of the repair PNG branch (claim C2) -/

/-- C2: evaluation of the repair PNG branch at `cexC2buf`, whose signature
offset is `p = 0` and whose decode succeeds.  The claim (and the spec) say
the payload placed at offset 22 equals the original bytes from `p` to the
end, i.e. payload byte 0 should be 137 (the first signature byte); but the
source memcpy reads from the same buffer AFTER it has been resized and its
first 22 bytes overwritten with the new header and entry, so payload byte 0
is 0. -/
theorem c2_payload_clobbered :
    (tryRepairPng decStub cexC2buf).isSome = true ∧
    ((tryRepairPng decStub cexC2buf).getD (e0, [])).2.getD 22 0 = 0 ∧
    cexC2buf.getD 0 0 = 137 ∧
    ((tryRepairPng decStub cexC2buf).getD (e0, [])).2.getD 27 0 = 0 ∧
    cexC2buf.getD 5 0 = 10 := by
  refine ⟨by decide, by decide, by decide, by decide, by decide⟩

end IconInverter
